import Mathlib

/-!
Verification of the geomloss epsilon-scaling annealing scheduler
(`src/geomloss/ot/abstract_solvers/annealing.py`) and the unbalanced
dual-potential scaling operator (`src/geomloss/backends/torch.py`).

Python floats are idealised as real numbers; `numpy` log/exp/geomspace
calls become `Real.log` / `Real.exp` applied in the exact same pattern
as the source. Python exceptions become an explicit error type, and the
function returns `Except SchedError DescentParameters`. The unbound
local variable `jumps` of the multi-scale branch of the source is
modelled by an `Option (List ℕ)` state that starts as `none`
(referencing it while `none` yields the `unboundLocalJumps` error,
mirroring Python's `UnboundLocalError`).
-/

/-- Errors raised by `annealing_parameters`.

* `nIterNonpositive` — ValueError for `n_iter <= 0` (line 126).
* `scalingOutOfRange` — ValueError for `scaling` outside `(0, 1]` (line 131).
* `underSpecified` — ValueError when both `n_iter` and `scaling` are `None` (line 136).
* `scalingOneNoNIter` — ValueError for `scaling == 1` with `n_iter` absent (line 147).
* `tooSteep` — ValueError raised inside the jump scan (line 220).
* `notImplemented` — NotImplementedError after the jump scan (line 227).
* `unboundLocalJumps` — Python `UnboundLocalError`: the local `jumps` is only
  bound in the single-scale branch (line 204), yet the multi-scale branch
  calls `jumps.append(i)` (line 210) and returns `jumps` (line 233). -/
inductive SchedError where
  | nIterNonpositive
  | scalingOutOfRange
  | underSpecified
  | scalingOneNoNIter
  | tooSteep
  | notImplemented
  | unboundLocalJumps
  deriving DecidableEq

/-- Modelled from the spec: the `DescentParameters` named tuple is imported
from `geomloss.ot.typing`, a module not among the provided sources; its
fields are taken from the spec's data model (diameter, blur_list, eps_list,
rho_list, jumps), which matches the keyword arguments used at the
construction site in `annealing.py` lines 231-237. -/
structure DescentParameters where
  diameter : ℝ
  blur_list : List ℝ
  eps_list : List ℝ
  rho_list : List (Option ℝ)
  jumps : List ℕ

/-- Embeds lines 166-187 of `annealing.py`: the three mutually exclusive
policies building `blur_list` from the (already clamped) diameter `D`,
the target `blur`, the optional `scaling` and the iteration count `n`.

* `scaling == 1` : `[blur] * n_iter`;
* `scaling is None` : `[blur]` if `n_iter == 1` else
  `np.geomspace(diameter, blur, n_iter)`, which equals
  `exp(log D + i * (log blur - log D) / (n - 1))` for `i = 0 .. n-1`;
* otherwise : `exp(maximum(log D + i * log scaling, log blur))`. -/
noncomputable def buildBlurList (D blur : ℝ) (scaling : Option ℝ) (n : ℕ) : List ℝ :=
  match scaling with
  | some s =>
      if s = 1 then List.replicate n blur
      else List.map (fun i : ℕ =>
        Real.exp (max (Real.log D + (i : ℝ) * Real.log s) (Real.log blur)))
        (List.range n)
  | none =>
      if n = 1 then [blur]
      else List.map (fun i : ℕ =>
        Real.exp (Real.log D + (i : ℝ) * (Real.log blur - Real.log D) / ((n : ℝ) - 1)))
        (List.range n)

/-- Embeds the loop of lines 206-228 of `annealing.py` (the jump scan of
the multi-scale branch). The first argument is `scales`; the `Option`
state models the local variable `jumps`, which is unbound (`none`) in this
branch of the source; `k` is the scale pointer and `i` the enumeration
index over `blur_list[1:]`. The trailing `if k < len(scales)` check of
line 227 is folded into the nil case, and returning the unbound `jumps`
at line 233 also yields `unboundLocalJumps`. -/
noncomputable def scanJumpsAux (sc : List ℝ) :
    Option (List ℕ) → ℕ → ℕ → List ℝ → Except SchedError (List ℕ)
  | none, k, _, [] =>
      if k < sc.length then .error .notImplemented else .error .unboundLocalJumps
  | some js, k, _, [] =>
      if k < sc.length then .error .notImplemented else .ok js
  | none, k, i, b :: rest =>
      if b < sc.getD k 0 then .error .unboundLocalJumps
      else scanJumpsAux sc none k (i + 1) rest
  | some js, k, i, b :: rest =>
      if b < sc.getD k 0 then
        if sc.length ≤ k + 1 then .ok (js ++ [i])
        else if b < sc.getD (k + 1) 0 then .error .tooSteep
        else scanJumpsAux sc (some (js ++ [i])) (k + 1) (i + 1) rest
      else scanJumpsAux sc (some js) k (i + 1) rest

/-- Embeds lines 166-237 of `annealing.py`: everything after the input
validation and the derivation of `n_iter`, namely the construction of
`blur_list`, `eps_list = [b**p for b in blur_list]`,
`rho_list = [rho] * len(blur_list)` with `rho = reach**p` (or `None`),
and the multi-scale jump scan. -/
noncomputable def mkDescent (D : ℝ) (p : ℕ) (blur : ℝ) (reach : Option ℝ)
    (scaling : Option ℝ) (scales : Option (List ℝ)) (n : ℕ) :
    Except SchedError DescentParameters :=
  match scales with
  | none =>
      .ok ⟨D, buildBlurList D blur scaling n,
           (buildBlurList D blur scaling n).map (· ^ p),
           List.replicate (buildBlurList D blur scaling n).length (reach.map (· ^ p)),
           []⟩
  | some sc =>
      if sc.length < 2 then
        .ok ⟨D, buildBlurList D blur scaling n,
             (buildBlurList D blur scaling n).map (· ^ p),
             List.replicate (buildBlurList D blur scaling n).length (reach.map (· ^ p)),
             []⟩
      else
        match scanJumpsAux sc none 0 0 (buildBlurList D blur scaling n).tail with
        | .error e => .error e
        | .ok js =>
            .ok ⟨D, buildBlurList D blur scaling n,
                 (buildBlurList D blur scaling n).map (· ^ p),
                 List.replicate (buildBlurList D blur scaling n).length (reach.map (· ^ p)),
                 js⟩

/-- Embeds `annealing_parameters` of `annealing.py` (lines 44-237).
The validation checks of lines 126-140 are performed in the source's
order within each `(n_iter, scaling)` shape; line 143 clamps the
diameter to `max diameter blur`; lines 146-158 derive
`n_iter = floor((log blur - log diameter) / log scaling) + 2` when
`n_iter` is absent (rejecting `scaling == 1` in that case). -/
noncomputable def annealing_parameters (diameter : ℝ) (p : ℕ) (blur : ℝ)
    (reach : Option ℝ) (n_iter : Option ℤ) (scaling : Option ℝ)
    (scales : Option (List ℝ)) : Except SchedError DescentParameters :=
  match n_iter, scaling with
  | some m, none =>
      if m ≤ 0 then .error .nIterNonpositive
      else mkDescent (max diameter blur) p blur reach none scales m.toNat
  | some m, some s =>
      if m ≤ 0 then .error .nIterNonpositive
      else if s ≤ 0 ∨ 1 < s then .error .scalingOutOfRange
      else mkDescent (max diameter blur) p blur reach (some s) scales m.toNat
  | none, none => .error .underSpecified
  | none, some s =>
      if s ≤ 0 ∨ 1 < s then .error .scalingOutOfRange
      else if s = 1 then .error .scalingOneNoNIter
      else
        mkDescent (max diameter blur) p blur reach (some s) scales
          (⌊(Real.log blur - Real.log (max diameter blur)) / Real.log s⌋ + 2).toNat

/-- The iteration count the source ends up using: `n_iter.toNat` when
`n_iter` is given, otherwise the derived
`floor((log blur - log D) / log scaling) + 2` (with `D` the clamped
diameter). The `(none, none)` shape is rejected by validation and the
value there is irrelevant. -/
noncomputable def effectiveN (D b : ℝ) (ni : Option ℤ) (sc : Option ℝ) : ℕ :=
  match ni, sc with
  | some m, _ => m.toNat
  | none, some s => (⌊(Real.log b - Real.log D) / Real.log s⌋ + 2).toNat
  | none, none => 0

/-- Number of Sinkhorn iterations of a successful result, `none` on error. -/
def okBlurLength (r : Except SchedError DescentParameters) : Option ℕ :=
  r.toOption.map fun o => o.blur_list.length

/-- Embeds the `UnbalancedWeight` module of `src/geomloss/backends/torch.py`
(lines 4-24): two scalar constants `eps` and `rho` fixed at construction. -/
structure UnbalancedWeight where
  eps : ℝ
  rho : ℝ

/-- `forward` of `UnbalancedWeight` (line 20-21): `(rho + eps/2) * x`. -/
noncomputable def UnbalancedWeight.forward (w : UnbalancedWeight) (x : ℝ) : ℝ :=
  (w.rho + w.eps / 2) * x

/-- `backward` of `UnbalancedWeight` (line 23-24): `(rho + eps) * g`. -/
noncomputable def UnbalancedWeight.backward (w : UnbalancedWeight) (g : ℝ) : ℝ :=
  (w.rho + w.eps) * g

/-- Claim C8: for an `UnbalancedWeight` built from constants `(eps, rho)`,
`forward x = (rho + eps/2) * x` for every `x` and
`backward g = (rho + eps) * g` for every `g`; with `eps = 2, rho = 3`,
`forward 4 = 16` and `backward 4 = 20`; and the forward and backward
multipliers differ whenever `eps ≠ 0`. -/
theorem unbalanced_weight_forward_backward :
    (∀ eps rho x : ℝ, (UnbalancedWeight.mk eps rho).forward x = (rho + eps / 2) * x) ∧
    (∀ eps rho g : ℝ, (UnbalancedWeight.mk eps rho).backward g = (rho + eps) * g) ∧
    (UnbalancedWeight.mk 2 3).forward 4 = 16 ∧
    (UnbalancedWeight.mk 2 3).backward 4 = 20 ∧
    (∀ eps rho : ℝ, eps ≠ 0 → rho + eps / 2 ≠ rho + eps) := by
  refine ⟨fun _ _ _ => rfl, fun _ _ _ => rfl, ?_, ?_, ?_⟩
  · norm_num [UnbalancedWeight.forward]
  · norm_num [UnbalancedWeight.backward]
  · intro eps rho h hc
    exact h (by linarith)

/-- Witness for claim C8: the multiplier inequality instantiated at
`eps = 2`, `rho = 3`. -/
theorem unbalanced_weight_forward_backward_witness :
    (2 : ℝ) ≠ 0 ∧ (3 : ℝ) + 2 / 2 ≠ 3 + 2 :=
  ⟨by norm_num, unbalanced_weight_forward_backward.2.2.2.2 2 3 (by norm_num)⟩

/-! ### Structural lemmas about the embedded scheduler -/

theorem buildBlurList_one (D b : ℝ) (n : ℕ) :
    buildBlurList D b (some 1) n = List.replicate n b := by
  simp [buildBlurList]

theorem buildBlurList_some_of_ne (D b s : ℝ) (n : ℕ) (hs : s ≠ 1) :
    buildBlurList D b (some s) n =
      List.map (fun i : ℕ =>
        Real.exp (max (Real.log D + (i : ℝ) * Real.log s) (Real.log b)))
        (List.range n) := by
  simp only [buildBlurList]
  rw [if_neg hs]

theorem buildBlurList_none_of_ne (D b : ℝ) (n : ℕ) (hn : n ≠ 1) :
    buildBlurList D b none n =
      List.map (fun i : ℕ =>
        Real.exp (Real.log D + (i : ℝ) * (Real.log b - Real.log D) / ((n : ℝ) - 1)))
        (List.range n) := by
  simp only [buildBlurList]
  rw [if_neg hn]

theorem buildBlurList_length (D b : ℝ) (sc : Option ℝ) (n : ℕ) :
    (buildBlurList D b sc n).length = n := by
  cases sc with
  | some s =>
    by_cases hs : s = 1
    · subst hs
      rw [buildBlurList_one, List.length_replicate]
    · rw [buildBlurList_some_of_ne D b s n hs, List.length_map, List.length_range]
  | none =>
    by_cases hn : n = 1
    · subst hn
      simp [buildBlurList]
    · rw [buildBlurList_none_of_ne D b n hn, List.length_map, List.length_range]

theorem scanJumpsAux_none_eq (sc : List ℝ) (hsc : sc ≠ []) :
    ∀ (bl : List ℝ) (i : ℕ),
      scanJumpsAux sc none 0 i bl =
        if ∃ x ∈ bl, x < sc.getD 0 0 then .error .unboundLocalJumps
        else .error .notImplemented := by
  intro bl
  induction bl with
  | nil =>
    intro i
    simp only [scanJumpsAux]
    rw [if_pos (List.length_pos.mpr hsc), if_neg (by simp)]
  | cons b rest ih =>
    intro i
    simp only [scanJumpsAux]
    by_cases hb : b < sc.getD 0 0
    · rw [if_pos hb, if_pos ⟨b, List.mem_cons_self b rest, hb⟩]
    · rw [if_neg hb, ih (i + 1)]
      have hiff : (∃ x ∈ rest, x < sc.getD 0 0) ↔ ∃ x ∈ b :: rest, x < sc.getD 0 0 := by
        simp only [List.mem_cons]
        constructor
        · rintro ⟨x, hx, hlt⟩; exact ⟨x, Or.inr hx, hlt⟩
        · rintro ⟨x, hx, hlt⟩
          rcases hx with rfl | hx
          · exact absurd hlt hb
          · exact ⟨x, hx, hlt⟩
      by_cases hx : ∃ x ∈ rest, x < sc.getD 0 0
      · rw [if_pos hx, if_pos (hiff.mp hx)]
      · rw [if_neg hx, if_neg (fun hc => hx (hiff.mpr hc))]

theorem scanJumpsAux_error_kinds (sc : List ℝ) :
    ∀ (bl : List ℝ) (js : Option (List ℕ)) (k i : ℕ) (e : SchedError),
      scanJumpsAux sc js k i bl = .error e →
      e = .unboundLocalJumps ∨ e = .tooSteep ∨ e = .notImplemented := by
  intro bl
  induction bl with
  | nil =>
    intro js k i e h
    cases js <;> simp only [scanJumpsAux] at h <;> split_ifs at h <;>
      first
        | exact Except.noConfusion h
        | exact Or.inl (Except.error.inj h).symm
        | exact Or.inr (Or.inl (Except.error.inj h).symm)
        | exact Or.inr (Or.inr (Except.error.inj h).symm)
  | cons b rest ih =>
    intro js k i e h
    cases js <;> simp only [scanJumpsAux] at h <;> split_ifs at h <;>
      first
        | exact Except.noConfusion h
        | exact Or.inl (Except.error.inj h).symm
        | exact Or.inr (Or.inl (Except.error.inj h).symm)
        | exact Or.inr (Or.inr (Except.error.inj h).symm)
        | exact ih _ _ _ _ h

theorem mkDescent_single (D : ℝ) (p : ℕ) (b : ℝ) (reach : Option ℝ)
    (sc : Option ℝ) (n : ℕ) :
    mkDescent D p b reach sc none n =
      .ok ⟨D, buildBlurList D b sc n, (buildBlurList D b sc n).map (· ^ p),
           List.replicate n (reach.map (· ^ p)), []⟩ := by
  simp [mkDescent, buildBlurList_length]

theorem mkDescent_multi (D : ℝ) (p : ℕ) (b : ℝ) (reach : Option ℝ) (sc : Option ℝ)
    (scl : List ℝ) (n : ℕ) (hlen : 2 ≤ scl.length) :
    mkDescent D p b reach sc (some scl) n =
      if ∃ x ∈ (buildBlurList D b sc n).tail, x < scl.getD 0 0
      then .error .unboundLocalJumps else .error .notImplemented := by
  have hne : scl ≠ [] := by
    intro hE
    rw [hE] at hlen
    simp at hlen
  simp only [mkDescent]
  rw [if_neg (by omega), scanJumpsAux_none_eq scl hne]
  by_cases hx : ∃ x ∈ (buildBlurList D b sc n).tail, x < scl.getD 0 0
  · rw [if_pos hx, if_pos hx]
  · rw [if_neg hx, if_neg hx]

theorem mkDescent_ok {D : ℝ} {p : ℕ} {b : ℝ} {reach : Option ℝ} {sc : Option ℝ}
    {scl : Option (List ℝ)} {n : ℕ} {out : DescentParameters}
    (h : mkDescent D p b reach sc scl n = .ok out) :
    out.diameter = D ∧ out.blur_list = buildBlurList D b sc n ∧
    out.eps_list = (buildBlurList D b sc n).map (· ^ p) ∧
    out.rho_list = List.replicate (buildBlurList D b sc n).length (reach.map (· ^ p)) := by
  cases scl with
  | none =>
    simp only [mkDescent, Except.ok.injEq] at h
    subst h
    exact ⟨rfl, rfl, rfl, rfl⟩
  | some l =>
    simp only [mkDescent] at h
    split_ifs at h with hlen
    · simp only [Except.ok.injEq] at h
      subst h
      exact ⟨rfl, rfl, rfl, rfl⟩
    · cases hscan : scanJumpsAux l none 0 0 (buildBlurList D b sc n).tail with
      | error e => rw [hscan] at h; exact absurd h (by simp)
      | ok js =>
        rw [hscan] at h
        simp only [Except.ok.injEq] at h
        subst h
        exact ⟨rfl, rfl, rfl, rfl⟩

/-! ### Arithmetic facts about the derived iteration count and the blur lists -/

theorem derivedN_q_nonneg (D b s : ℝ) (hb : 0 < b) (hbD : b ≤ D) (h1 : 0 < s) (h2 : s < 1) :
    0 ≤ (Real.log b - Real.log D) / Real.log s := by
  have hlog : Real.log s < 0 := Real.log_neg h1 h2
  have hnum : Real.log b - Real.log D ≤ 0 :=
    sub_nonpos.mpr (Real.log_le_log hb hbD)
  rcases div_nonneg_iff.mpr (Or.inr ⟨hnum, hlog.le⟩) with h
  exact h

theorem derivedN_pos (D b s : ℝ) (hb : 0 < b) (hbD : b ≤ D) (h1 : 0 < s) (h2 : s < 1) :
    1 ≤ (⌊(Real.log b - Real.log D) / Real.log s⌋ + 2).toNat := by
  have h3 : 0 ≤ ⌊(Real.log b - Real.log D) / Real.log s⌋ :=
    Int.floor_nonneg.mpr (derivedN_q_nonneg D b s hb hbD h1 h2)
  omega

theorem derivedN_floor_le (D b s : ℝ) (hb : 0 < b) (hbD : b ≤ D) (h1 : 0 < s) (h2 : s < 1) :
    Real.log D +
      ((((⌊(Real.log b - Real.log D) / Real.log s⌋ + 2).toNat : ℕ) : ℝ) - 1) * Real.log s
      ≤ Real.log b := by
  have hlog : Real.log s < 0 := Real.log_neg h1 h2
  set q := (Real.log b - Real.log D) / Real.log s with hq
  have h3 : 0 ≤ ⌊q⌋ := Int.floor_nonneg.mpr (derivedN_q_nonneg D b s hb hbD h1 h2)
  have h7 : (0 : ℤ) ≤ ⌊q⌋ + 2 := by omega
  have hcast : ((((⌊q⌋ + 2).toNat : ℕ)) : ℝ) = (⌊q⌋ : ℝ) + 2 := by
    exact_mod_cast Int.toNat_of_nonneg h7
  rw [hcast]
  have h4 : q < (⌊q⌋ : ℝ) + 1 := Int.lt_floor_add_one q
  have h5 : ((⌊q⌋ : ℝ) + 1) * Real.log s ≤ q * Real.log s := by nlinarith
  have h6 : q * Real.log s = Real.log b - Real.log D := div_mul_cancel₀ _ hlog.ne
  have h8 : ((⌊q⌋ : ℝ) + 2 - 1) = (⌊q⌋ : ℝ) + 1 := by ring
  rw [h8]
  linarith

theorem pairwise_ge_map_range (f : ℕ → ℝ) (n : ℕ) (hf : ∀ i j : ℕ, i ≤ j → f j ≤ f i) :
    (List.map f (List.range n)).Pairwise (· ≥ ·) := by
  rw [List.pairwise_map]
  exact (List.pairwise_lt_range n).imp fun h => hf _ _ (Nat.le_of_lt h)

theorem pairwise_ge_replicate (n : ℕ) (b : ℝ) :
    (List.replicate n b).Pairwise (· ≥ ·) := by
  induction n with
  | zero => simp
  | succ m ih =>
    rw [List.replicate_succ]
    exact List.Pairwise.cons (fun x hx => (List.eq_of_mem_replicate hx).le) ih

theorem getLast?_map_range (f : ℕ → ℝ) (n : ℕ) (hn : 1 ≤ n) :
    (List.map f (List.range n)).getLast? = some (f (n - 1)) := by
  obtain ⟨m, rfl⟩ : ∃ m, n = m + 1 := ⟨n - 1, by omega⟩
  rw [List.range_succ, List.map_append]
  simp [List.getLast?_concat]

theorem getLast?_replicate (n : ℕ) (b : ℝ) (hn : 1 ≤ n) :
    (List.replicate n b).getLast? = some b := by
  obtain ⟨m, rfl⟩ : ∃ m, n = m + 1 := ⟨n - 1, by omega⟩
  rw [List.replicate_succ']
  exact List.getLast?_concat _

theorem buildBlurList_sorted (D b : ℝ) (sc : Option ℝ) (n : ℕ) (hb : 0 < b) (hbD : b ≤ D)
    (hsc : ∀ s, sc = some s → 0 < s ∧ s ≤ 1) :
    (buildBlurList D b sc n).Pairwise (· ≥ ·) := by
  cases sc with
  | some s =>
    obtain ⟨h1, h2⟩ := hsc s rfl
    by_cases hs : s = 1
    · subst hs
      rw [buildBlurList_one]
      exact pairwise_ge_replicate n b
    · rw [buildBlurList_some_of_ne D b s n hs]
      apply pairwise_ge_map_range
      intro i j hij
      apply Real.exp_le_exp.mpr
      apply max_le_max _ le_rfl
      have hls : Real.log s ≤ 0 := Real.log_nonpos h1.le h2
      have hij2 : (i : ℝ) ≤ (j : ℝ) := by exact_mod_cast hij
      nlinarith
  | none =>
    by_cases hn : n = 1
    · subst hn
      simp [buildBlurList]
    · rw [buildBlurList_none_of_ne D b n hn]
      rcases Nat.lt_or_ge n 2 with hl | hl
      · have hz : n = 0 := by omega
        subst hz
        simp
      · apply pairwise_ge_map_range
        intro i j hij
        apply Real.exp_le_exp.mpr
        have hden : (0 : ℝ) < (n : ℝ) - 1 := by
          have h9 : (2 : ℝ) ≤ (n : ℝ) := by exact_mod_cast hl
          linarith
        have hnum : Real.log b - Real.log D ≤ 0 :=
          sub_nonpos.mpr (Real.log_le_log hb hbD)
        have hc : (Real.log b - Real.log D) / ((n : ℝ) - 1) ≤ 0 :=
          div_nonpos_of_nonpos_of_nonneg hnum hden.le
        have hij2 : (i : ℝ) ≤ (j : ℝ) := by exact_mod_cast hij
        rw [mul_div_assoc, mul_div_assoc]
        have h10 := mul_le_mul_of_nonpos_right hij2 hc
        linarith

theorem buildBlurList_ge_blur (D b : ℝ) (sc : Option ℝ) (n : ℕ) (hb : 0 < b) (hbD : b ≤ D)
    (hsc : ∀ s, sc = some s → 0 < s ∧ s ≤ 1) :
    ∀ x ∈ buildBlurList D b sc n, b ≤ x := by
  cases sc with
  | some s =>
    by_cases hs : s = 1
    · subst hs
      rw [buildBlurList_one]
      intro x hx
      exact (List.eq_of_mem_replicate hx).ge
    · rw [buildBlurList_some_of_ne D b s n hs]
      intro x hx
      simp only [List.mem_map, List.mem_range] at hx
      obtain ⟨i, _, rfl⟩ := hx
      calc b = Real.exp (Real.log b) := (Real.exp_log hb).symm
        _ ≤ _ := Real.exp_le_exp.mpr (le_max_right _ _)
  | none =>
    by_cases hn : n = 1
    · subst hn
      intro x hx
      simp [buildBlurList] at hx
      exact hx.ge
    · rw [buildBlurList_none_of_ne D b n hn]
      intro x hx
      simp only [List.mem_map, List.mem_range] at hx
      obtain ⟨i, hi, rfl⟩ := hx
      rcases Nat.lt_or_ge n 2 with hl | hl
      · omega
      · have hden : (0 : ℝ) < (n : ℝ) - 1 := by
          have h9 : (2 : ℝ) ≤ (n : ℝ) := by exact_mod_cast hl
          linarith
        have hnum : Real.log b ≤ Real.log D := Real.log_le_log hb hbD
        have hi2 : (i : ℝ) ≤ (n : ℝ) - 1 := by
          have h9 : ((i : ℝ)) + 1 ≤ (n : ℝ) := by exact_mod_cast hi
          linarith
        have hc : (Real.log b - Real.log D) / ((n : ℝ) - 1) ≤ 0 :=
          div_nonpos_of_nonpos_of_nonneg (sub_nonpos.mpr hnum) hden.le
        have h11 : ((n : ℝ) - 1) * ((Real.log b - Real.log D) / ((n : ℝ) - 1)) =
            Real.log b - Real.log D := by
          rw [mul_comm]
          exact div_mul_cancel₀ _ hden.ne'
        have h12 := mul_le_mul_of_nonpos_right hi2 hc
        calc b = Real.exp (Real.log b) := (Real.exp_log hb).symm
          _ ≤ _ := by
            apply Real.exp_le_exp.mpr
            rw [mul_div_assoc]
            linarith

theorem buildBlurList_getLast_none (D b : ℝ) (n : ℕ) (hb : 0 < b) (hn : 1 ≤ n) :
    (buildBlurList D b none n).getLast? = some b := by
  by_cases h1 : n = 1
  · subst h1
    simp [buildBlurList]
  · rw [buildBlurList_none_of_ne D b n h1, getLast?_map_range _ _ hn]
    have hn2 : 2 ≤ n := by omega
    have hden : ((n : ℝ) - 1) ≠ 0 := by
      have h9 : (2 : ℝ) ≤ (n : ℝ) := by exact_mod_cast hn2
      intro hE
      linarith
    have hcast : (((n - 1 : ℕ)) : ℝ) = (n : ℝ) - 1 := by
      rw [Nat.cast_sub hn]
      norm_num
    have h13 : Real.log D + (((n - 1 : ℕ) : ℝ)) * (Real.log b - Real.log D) / ((n : ℝ) - 1) =
        Real.log b := by
      rw [hcast]
      field_simp
    rw [h13, Real.exp_log hb]

theorem buildBlurList_getLast_one (D b : ℝ) (n : ℕ) (hn : 1 ≤ n) :
    (buildBlurList D b (some 1) n).getLast? = some b := by
  rw [buildBlurList_one]
  exact getLast?_replicate n b hn

theorem buildBlurList_getLast_some (D b s : ℝ) (n : ℕ) (hb : 0 < b) (hs : s ≠ 1) (hn : 1 ≤ n)
    (hfl : Real.log D + ((n : ℝ) - 1) * Real.log s ≤ Real.log b) :
    (buildBlurList D b (some s) n).getLast? = some b := by
  rw [buildBlurList_some_of_ne D b s n hs, getLast?_map_range _ _ hn]
  have hcast : (((n - 1 : ℕ)) : ℝ) = (n : ℝ) - 1 := by
    rw [Nat.cast_sub hn]
    norm_num
  have h14 : Real.log D + (((n - 1 : ℕ)) : ℝ) * Real.log s ≤ Real.log b := by
    rw [hcast]
    exact hfl
  rw [max_eq_right h14, Real.exp_log hb]

/-! ### Unfolding and inversion lemmas for `annealing_parameters` -/

theorem annealing_given_eq (d : ℝ) (p : ℕ) (b : ℝ) (reach : Option ℝ) (m : ℤ)
    (sc : Option ℝ) (scl : Option (List ℝ)) (hm : 0 < m)
    (hsc : ∀ s, sc = some s → 0 < s ∧ s ≤ 1) :
    annealing_parameters d p b reach (some m) sc scl =
      mkDescent (max d b) p b reach sc scl m.toNat := by
  cases sc with
  | none =>
    simp only [annealing_parameters]
    rw [if_neg (by omega)]
  | some s =>
    obtain ⟨h1, h2⟩ := hsc s rfl
    simp only [annealing_parameters]
    rw [if_neg (by omega), if_neg (by push_neg; exact ⟨h1, h2⟩)]

theorem annealing_derived_eq (d : ℝ) (p : ℕ) (b : ℝ) (reach : Option ℝ) (s : ℝ)
    (scl : Option (List ℝ)) (h1 : 0 < s) (h2 : s < 1) :
    annealing_parameters d p b reach none (some s) scl =
      mkDescent (max d b) p b reach (some s) scl
        (⌊(Real.log b - Real.log (max d b)) / Real.log s⌋ + 2).toNat := by
  simp only [annealing_parameters]
  rw [if_neg (by push_neg; exact ⟨h1, h2.le⟩), if_neg h2.ne]

theorem annealing_ok_inv {d : ℝ} {p : ℕ} {b : ℝ} {reach : Option ℝ} {ni : Option ℤ}
    {sc : Option ℝ} {scl : Option (List ℝ)} {out : DescentParameters}
    (hb : 0 < b)
    (h : annealing_parameters d p b reach ni sc scl = .ok out) :
    ∃ n : ℕ, 1 ≤ n ∧
      (∀ m, ni = some m → (n : ℤ) = m) ∧
      (∀ s, sc = some s → 0 < s ∧ s ≤ 1) ∧
      (ni = none → ∃ s, sc = some s ∧ s ≠ 1 ∧
        n = (⌊(Real.log b - Real.log (max d b)) / Real.log s⌋ + 2).toNat) ∧
      mkDescent (max d b) p b reach sc scl n = .ok out := by
  cases ni with
  | some m =>
    cases sc with
    | none =>
      simp only [annealing_parameters] at h
      by_cases hm : m ≤ 0
      · rw [if_pos hm] at h
        exact absurd h (by simp)
      · rw [if_neg hm] at h
        refine ⟨m.toNat, by omega, ?_, ?_, ?_, h⟩
        · intro m2 hm2
          injection hm2 with hh
          subst hh
          omega
        · intro s hs
          exact absurd hs (by simp)
        · intro hE
          exact absurd hE (by simp)
    | some s =>
      simp only [annealing_parameters] at h
      by_cases hm : m ≤ 0
      · rw [if_pos hm] at h
        exact absurd h (by simp)
      · rw [if_neg hm] at h
        by_cases hs : s ≤ 0 ∨ 1 < s
        · rw [if_pos hs] at h
          exact absurd h (by simp)
        · rw [if_neg hs] at h
          push_neg at hs
          refine ⟨m.toNat, by omega, ?_, ?_, ?_, h⟩
          · intro m2 hm2
            injection hm2 with hh
            subst hh
            omega
          · intro s2 hs2
            injection hs2 with hh
            subst hh
            exact hs
          · intro hE
            exact absurd hE (by simp)
  | none =>
    cases sc with
    | none =>
      simp only [annealing_parameters] at h
      exact absurd h (by simp)
    | some s =>
      simp only [annealing_parameters] at h
      by_cases hs : s ≤ 0 ∨ 1 < s
      · rw [if_pos hs] at h
        exact absurd h (by simp)
      · rw [if_neg hs] at h
        by_cases hs1 : s = 1
        · rw [if_pos hs1] at h
          exact absurd h (by simp)
        · rw [if_neg hs1] at h
          push_neg at hs
          refine ⟨_, ?_, ?_, ?_, ?_, h⟩
          · exact derivedN_pos _ _ _ hb (le_max_right d b) hs.1 (lt_of_le_of_ne hs.2 hs1)
          · intro m hm
            exact absurd hm (by simp)
          · intro s2 hs2
            injection hs2 with hh
            subst hh
            exact hs
          · intro _
            exact ⟨s, rfl, hs1, rfl⟩

theorem annealing_ok_fields {d : ℝ} {p : ℕ} {b : ℝ} {reach : Option ℝ} {ni : Option ℤ}
    {sc : Option ℝ} {scl : Option (List ℝ)} {out : DescentParameters}
    (hb : 0 < b)
    (h : annealing_parameters d p b reach ni sc scl = .ok out) :
    out.diameter = max d b ∧
    out.eps_list = out.blur_list.map (· ^ p) ∧
    out.rho_list = List.replicate out.blur_list.length (reach.map (· ^ p)) ∧
    ∃ n : ℕ, 1 ≤ n ∧ out.blur_list = buildBlurList (max d b) b sc n ∧
      (∀ m, ni = some m → (n : ℤ) = m) ∧ (∀ s, sc = some s → 0 < s ∧ s ≤ 1) := by
  obtain ⟨n, hn1, hnm, hsc, _, hmk⟩ := annealing_ok_inv hb h
  obtain ⟨hdiam, hblur, heps, hrho⟩ := mkDescent_ok hmk
  refine ⟨hdiam, ?_, ?_, n, hn1, hblur, hnm, hsc⟩
  · rw [heps, hblur]
  · rw [hrho, hblur]

/-! ### Claim theorems on successful runs -/

/-- Claim C6: for every valid configuration that returns, `blur_list`,
`eps_list` and `rho_list` all have the same length, that length is the
iteration count `n_iter` (when given) and is at least 1, and
`eps_list[i] = blur_list[i] ^ p` elementwise. -/
theorem lists_length_and_eps_pow (d : ℝ) (p : ℕ) (b : ℝ) (reach : Option ℝ)
    (ni : Option ℤ) (sc : Option ℝ) (scl : Option (List ℝ)) (out : DescentParameters)
    (hb : 0 < b)
    (h : annealing_parameters d p b reach ni sc scl = .ok out) :
    out.eps_list = out.blur_list.map (· ^ p) ∧
    out.eps_list.length = out.blur_list.length ∧
    out.rho_list.length = out.blur_list.length ∧
    1 ≤ out.blur_list.length ∧
    (∀ m, ni = some m → (out.blur_list.length : ℤ) = m) := by
  obtain ⟨-, heps, hrho, n, hn1, hblur, hnm, -⟩ := annealing_ok_fields hb h
  have hlen : out.blur_list.length = n := by
    rw [hblur, buildBlurList_length]
  refine ⟨heps, by rw [heps, List.length_map], by rw [hrho, List.length_replicate], ?_, ?_⟩
  · omega
  · intro m hm
    rw [hlen]
    exact hnm m hm

/-- Claim C7: for every valid configuration that returns, `rho_list` is
constant: every entry is the `none` sentinel when `reach` is absent, and
every entry equals `reach ^ p` when `reach` is given. -/
theorem rho_list_constant (d : ℝ) (p : ℕ) (b : ℝ) (reach : Option ℝ)
    (ni : Option ℤ) (sc : Option ℝ) (scl : Option (List ℝ)) (out : DescentParameters)
    (hb : 0 < b)
    (h : annealing_parameters d p b reach ni sc scl = .ok out) :
    out.rho_list.length = out.blur_list.length ∧
    (reach = none → ∀ r ∈ out.rho_list, r = none) ∧
    (∀ re, reach = some re → ∀ r ∈ out.rho_list, r = some (re ^ p)) := by
  obtain ⟨-, -, hrho, -⟩ := annealing_ok_fields hb h
  refine ⟨by rw [hrho, List.length_replicate], ?_, ?_⟩
  · intro hre r hr
    rw [hrho, hre] at hr
    simpa using List.eq_of_mem_replicate hr
  · intro re hre r hr
    rw [hrho, hre] at hr
    simpa using List.eq_of_mem_replicate hr

/-- Claim C9 (amended): for every valid configuration that returns,
`blur_list` is non-strictly decreasing and every entry is at least `blur`;
the floor `blur` is exactly reached at the final entry when `scaling` is
absent or equal to 1.  (When both `n_iter` and `scaling < 1` are given the
schedule may stop strictly above `blur`; see the counterexample.) -/
theorem blur_monotone_amended (d : ℝ) (p : ℕ) (b : ℝ) (reach : Option ℝ)
    (ni : Option ℤ) (sc : Option ℝ) (scl : Option (List ℝ)) (out : DescentParameters)
    (hb : 0 < b)
    (h : annealing_parameters d p b reach ni sc scl = .ok out) :
    out.blur_list.Pairwise (· ≥ ·) ∧
    (∀ x ∈ out.blur_list, b ≤ x) ∧
    ((sc = none ∨ sc = some 1) → out.blur_list.getLast? = some b) := by
  obtain ⟨-, -, -, n, hn1, hblur, -, hsc⟩ := annealing_ok_fields hb h
  have hbD : b ≤ max d b := le_max_right d b
  refine ⟨?_, ?_, ?_⟩
  · rw [hblur]
    exact buildBlurList_sorted _ _ _ _ hb hbD hsc
  · rw [hblur]
    exact buildBlurList_ge_blur _ _ _ _ hb hbD hsc
  · rintro (rfl | rfl)
    · rw [hblur]
      exact buildBlurList_getLast_none _ _ _ hb hn1
    · rw [hblur]
      exact buildBlurList_getLast_one _ _ _ hn1

/-- Claim C2 (amended): for every valid configuration with `scaling ≠ 1`
that returns, the last entry of `blur_list` equals `blur` whenever
`n_iter` is absent or `scaling` is absent; when both are given it still
equals `blur` provided the geometric ramp reaches the floor, i.e.
`max(diameter, blur) * scaling ^ (n_iter - 1) ≤ blur`. -/
theorem blur_last_amended (d : ℝ) (p : ℕ) (b : ℝ) (reach : Option ℝ)
    (ni : Option ℤ) (sc : Option ℝ) (scl : Option (List ℝ)) (out : DescentParameters)
    (hb : 0 < b) (hne1 : sc ≠ some 1)
    (h : annealing_parameters d p b reach ni sc scl = .ok out)
    (hcase : ni = none ∨ sc = none ∨
      (∃ m s, ni = some m ∧ sc = some s ∧ max d b * s ^ (m.toNat - 1) ≤ b)) :
    out.blur_list.getLast? = some b := by
  obtain ⟨n, hn1, hnm, hscv, hder, hmk⟩ := annealing_ok_inv hb h
  obtain ⟨-, hblur, -, -⟩ := mkDescent_ok hmk
  rw [hblur]
  rcases hcase with hni | hsc | hboth
  · obtain ⟨s, rfl, hs1, hn⟩ := hder hni
    obtain ⟨hs0, hsle⟩ := hscv s rfl
    have hslt : s < 1 := lt_of_le_of_ne hsle hs1
    apply buildBlurList_getLast_some _ _ _ _ hb hs1 hn1
    rw [hn]
    exact derivedN_floor_le (max d b) b s hb (le_max_right d b) hs0 hslt
  · subst hsc
    exact buildBlurList_getLast_none _ _ _ hb hn1
  · obtain ⟨m, s, rfl, rfl, hfloor⟩ := hboth
    obtain ⟨hs0, hsle⟩ := hscv s rfl
    have hs1 : s ≠ 1 := fun hE => hne1 (by rw [hE])
    have hn : n = m.toNat := by
      have h15 := hnm m rfl
      omega
    have hD0 : (0 : ℝ) < max d b := lt_of_lt_of_le hb (le_max_right d b)
    have hpow : (0 : ℝ) < s ^ (m.toNat - 1) := pow_pos hs0 _
    have hlog : Real.log (max d b * s ^ (m.toNat - 1)) ≤ Real.log b :=
      Real.log_le_log (mul_pos hD0 hpow) hfloor
    rw [Real.log_mul hD0.ne' hpow.ne', Real.log_pow] at hlog
    apply buildBlurList_getLast_some _ _ _ _ hb hs1 hn1
    have h1n : 1 ≤ m.toNat := by omega
    have hcast : (((m.toNat - 1 : ℕ)) : ℝ) = ((m.toNat : ℕ) : ℝ) - 1 := by
      rw [Nat.cast_sub h1n]
      norm_num
    rw [hn, ← hcast]
    exact hlog

/-! ### Validation errors and the multi-scale branch -/

theorem annealing_eq_some_none (d : ℝ) (p : ℕ) (b : ℝ) (reach : Option ℝ) (m : ℤ)
    (scl : Option (List ℝ)) :
    annealing_parameters d p b reach (some m) none scl =
      if m ≤ 0 then .error .nIterNonpositive
      else mkDescent (max d b) p b reach none scl m.toNat := rfl

theorem annealing_eq_some_some (d : ℝ) (p : ℕ) (b : ℝ) (reach : Option ℝ) (m : ℤ)
    (s : ℝ) (scl : Option (List ℝ)) :
    annealing_parameters d p b reach (some m) (some s) scl =
      if m ≤ 0 then .error .nIterNonpositive
      else if s ≤ 0 ∨ 1 < s then .error .scalingOutOfRange
      else mkDescent (max d b) p b reach (some s) scl m.toNat := rfl

theorem annealing_eq_none_none (d : ℝ) (p : ℕ) (b : ℝ) (reach : Option ℝ)
    (scl : Option (List ℝ)) :
    annealing_parameters d p b reach none none scl = .error .underSpecified := rfl

theorem annealing_eq_none_some (d : ℝ) (p : ℕ) (b : ℝ) (reach : Option ℝ) (s : ℝ)
    (scl : Option (List ℝ)) :
    annealing_parameters d p b reach none (some s) scl =
      if s ≤ 0 ∨ 1 < s then .error .scalingOutOfRange
      else if s = 1 then .error .scalingOneNoNIter
      else
        mkDescent (max d b) p b reach (some s) scl
          (⌊(Real.log b - Real.log (max d b)) / Real.log s⌋ + 2).toNat := rfl

theorem mkDescent_not_validation (D : ℝ) (p : ℕ) (b : ℝ) (reach : Option ℝ)
    (sc : Option ℝ) (scl : Option (List ℝ)) (n : ℕ) (e : SchedError)
    (he : e = .nIterNonpositive ∨ e = .scalingOutOfRange ∨ e = .underSpecified ∨
      e = .scalingOneNoNIter) :
    mkDescent D p b reach sc scl n ≠ .error e := by
  intro h
  have hkinds : e = .unboundLocalJumps ∨ e = .tooSteep ∨ e = .notImplemented := by
    cases scl with
    | none =>
      rw [mkDescent_single] at h
      exact absurd h (by simp)
    | some l =>
      simp only [mkDescent] at h
      split_ifs at h with hlen
      cases hscan : scanJumpsAux l none 0 0 (buildBlurList D b sc n).tail with
      | error e2 =>
        rw [hscan] at h
        have h2 := scanJumpsAux_error_kinds l _ none 0 0 e2 hscan
        have h3 : e2 = e := Except.error.inj h
        rw [← h3]
        exact h2
      | ok js =>
        rw [hscan] at h
        exact absurd h (by simp)
  rcases he with rfl | rfl | rfl | rfl <;>
    rcases hkinds with h2 | h2 | h2 <;> exact SchedError.noConfusion h2

/-- Claim C4: `annealing_parameters` returns one of its four
invalid-argument errors exactly when `n_iter` is given and nonpositive,
or `scaling` is given and outside `(0, 1]`, or both `n_iter` and `scaling`
are absent, or `scaling = 1` while `n_iter` is absent; no partial result
is produced in those cases. -/
theorem validation_errors_iff (d : ℝ) (p : ℕ) (b : ℝ) (reach : Option ℝ)
    (ni : Option ℤ) (sc : Option ℝ) (scl : Option (List ℝ)) :
    (annealing_parameters d p b reach ni sc scl = .error .nIterNonpositive ∨
     annealing_parameters d p b reach ni sc scl = .error .scalingOutOfRange ∨
     annealing_parameters d p b reach ni sc scl = .error .underSpecified ∨
     annealing_parameters d p b reach ni sc scl = .error .scalingOneNoNIter) ↔
    ((∃ m, ni = some m ∧ m ≤ 0) ∨
     (∃ s, sc = some s ∧ (s ≤ 0 ∨ 1 < s)) ∨
     (ni = none ∧ sc = none) ∨
     (ni = none ∧ sc = some 1)) := by
  cases ni with
  | some m =>
    cases sc with
    | none =>
      rw [annealing_eq_some_none]
      by_cases hm : m ≤ 0
      · rw [if_pos hm]
        constructor
        · intro _
          exact Or.inl ⟨m, rfl, hm⟩
        · intro _
          exact Or.inl rfl
      · rw [if_neg hm]
        constructor
        · rintro (h | h | h | h)
          · exact absurd h (mkDescent_not_validation _ _ _ _ _ _ _ _ (Or.inl rfl))
          · exact absurd h (mkDescent_not_validation _ _ _ _ _ _ _ _ (Or.inr (Or.inl rfl)))
          · exact absurd h (mkDescent_not_validation _ _ _ _ _ _ _ _ (Or.inr (Or.inr (Or.inl rfl))))
          · exact absurd h (mkDescent_not_validation _ _ _ _ _ _ _ _ (Or.inr (Or.inr (Or.inr rfl))))
        · rintro (⟨m2, hm2, hle⟩ | ⟨s, hs, _⟩ | ⟨h1, _⟩ | ⟨h1, _⟩)
          · injection hm2 with hh
            subst hh
            exact absurd hle hm
          · exact Option.noConfusion hs
          · exact Option.noConfusion h1
          · exact Option.noConfusion h1
    | some s =>
      rw [annealing_eq_some_some]
      by_cases hm : m ≤ 0
      · rw [if_pos hm]
        constructor
        · intro _
          exact Or.inl ⟨m, rfl, hm⟩
        · intro _
          exact Or.inl rfl
      · rw [if_neg hm]
        by_cases hs : s ≤ 0 ∨ 1 < s
        · rw [if_pos hs]
          constructor
          · intro _
            exact Or.inr (Or.inl ⟨s, rfl, hs⟩)
          · intro _
            exact Or.inr (Or.inl rfl)
        · rw [if_neg hs]
          constructor
          · rintro (h | h | h | h)
            · exact absurd h (mkDescent_not_validation _ _ _ _ _ _ _ _ (Or.inl rfl))
            · exact absurd h (mkDescent_not_validation _ _ _ _ _ _ _ _ (Or.inr (Or.inl rfl)))
            · exact absurd h (mkDescent_not_validation _ _ _ _ _ _ _ _ (Or.inr (Or.inr (Or.inl rfl))))
            · exact absurd h (mkDescent_not_validation _ _ _ _ _ _ _ _ (Or.inr (Or.inr (Or.inr rfl))))
          · rintro (⟨m2, hm2, hle⟩ | ⟨s2, hs2, hrange⟩ | ⟨h1, _⟩ | ⟨h1, _⟩)
            · injection hm2 with hh
              subst hh
              exact absurd hle hm
            · injection hs2 with hh
              subst hh
              exact absurd hrange hs
            · exact Option.noConfusion h1
            · exact Option.noConfusion h1
  | none =>
    cases sc with
    | none =>
      rw [annealing_eq_none_none]
      constructor
      · intro _
        exact Or.inr (Or.inr (Or.inl ⟨rfl, rfl⟩))
      · intro _
        exact Or.inr (Or.inr (Or.inl rfl))
    | some s =>
      rw [annealing_eq_none_some]
      by_cases hs : s ≤ 0 ∨ 1 < s
      · rw [if_pos hs]
        constructor
        · intro _
          exact Or.inr (Or.inl ⟨s, rfl, hs⟩)
        · intro _
          exact Or.inr (Or.inl rfl)
      · rw [if_neg hs]
        by_cases hs1 : s = 1
        · rw [if_pos hs1]
          subst hs1
          constructor
          · intro _
            exact Or.inr (Or.inr (Or.inr ⟨rfl, rfl⟩))
          · intro _
            exact Or.inr (Or.inr (Or.inr rfl))
        · rw [if_neg hs1]
          constructor
          · rintro (h | h | h | h)
            · exact absurd h (mkDescent_not_validation _ _ _ _ _ _ _ _ (Or.inl rfl))
            · exact absurd h (mkDescent_not_validation _ _ _ _ _ _ _ _ (Or.inr (Or.inl rfl)))
            · exact absurd h (mkDescent_not_validation _ _ _ _ _ _ _ _ (Or.inr (Or.inr (Or.inl rfl))))
            · exact absurd h (mkDescent_not_validation _ _ _ _ _ _ _ _ (Or.inr (Or.inr (Or.inr rfl))))
          · rintro (⟨m2, hm2, _⟩ | ⟨s2, hs2, hrange⟩ | ⟨_, h2⟩ | ⟨_, h2⟩)
            · exact Option.noConfusion hm2
            · injection hs2 with hh
              subst hh
              exact absurd hrange hs
            · exact Option.noConfusion h2
            · injection h2 with hh
              exact absurd hh hs1

theorem effectiveN_some (D b : ℝ) (m : ℤ) (sc : Option ℝ) :
    effectiveN D b (some m) sc = m.toNat := rfl

theorem effectiveN_none_some (D b s : ℝ) :
    effectiveN D b none (some s) =
      (⌊(Real.log b - Real.log D) / Real.log s⌋ + 2).toNat := rfl

/-- Claim C10: in multi-scale mode (at least two scales) with all basic
validations passing, `annealing_parameters` never returns normally: if some
entry of `blur_list[1:]` is below `scales[0]` the first jump-recording step
hits the unbound local `jumps`, and otherwise the scale pointer never
reaches the end of `scales` and the not-yet-supported error is raised. -/
theorem multiscale_never_returns (d : ℝ) (p : ℕ) (b : ℝ) (reach : Option ℝ)
    (ni : Option ℤ) (sc : Option ℝ) (scl : List ℝ)
    (hlen : 2 ≤ scl.length)
    (h1 : ∀ m, ni = some m → 0 < m)
    (h2 : ∀ s, sc = some s → 0 < s ∧ s ≤ 1)
    (h3 : ¬(ni = none ∧ sc = none))
    (h4 : ¬(ni = none ∧ sc = some 1)) :
    annealing_parameters d p b reach ni sc (some scl) =
      if ∃ x ∈ (buildBlurList (max d b) b sc (effectiveN (max d b) b ni sc)).tail,
          x < scl.getD 0 0
      then .error .unboundLocalJumps
      else .error .notImplemented := by
  cases ni with
  | some m =>
    rw [annealing_given_eq d p b reach m sc (some scl) (h1 m rfl) h2,
      mkDescent_multi _ _ _ _ _ _ _ hlen, effectiveN_some]
  | none =>
    cases sc with
    | none => exact absurd ⟨rfl, rfl⟩ h3
    | some s =>
      have hs1 : s ≠ 1 := fun hE => h4 ⟨rfl, by rw [hE]⟩
      obtain ⟨hs0, hsle⟩ := h2 s rfl
      rw [annealing_derived_eq d p b reach s (some scl) hs0 (lt_of_le_of_ne hsle hs1),
        mkDescent_multi _ _ _ _ _ _ _ hlen, effectiveN_none_some]

/-- Witness for claim C10: a concrete multi-scale configuration
(diameter 8, blur 2, two iterations, scales `[6, 3]`) on which the theorem
applies. -/
theorem multiscale_never_returns_witness :
    annealing_parameters 8 1 2 none (some 2) none (some [6, 3]) =
      if ∃ x ∈ (buildBlurList (max 8 2) 2 none (effectiveN (max 8 2) 2 (some 2) none)).tail,
          x < ([6, 3] : List ℝ).getD 0 0
      then .error .unboundLocalJumps
      else .error .notImplemented :=
  multiscale_never_returns 8 1 2 none (some 2) none [6, 3] (by simp)
    (fun m hm => by injection hm with hh; omega)
    (fun s hs => Option.noConfusion hs)
    (by simp) (by simp)

/-! ### Concrete evaluations -/

theorem buildBlurList_geom_two (D b : ℝ) (hD : 0 < D) (hb : 0 < b) :
    buildBlurList D b none 2 = [D, b] := by
  rw [buildBlurList_none_of_ne D b 2 (by omega)]
  have hr : List.range 2 = [0, 1] := rfl
  rw [hr]
  simp only [List.map_cons, List.map_nil, Nat.cast_zero, Nat.cast_one, zero_mul, one_mul,
    Nat.cast_ofNat]
  have h0 : Real.log D + 0 / ((2 : ℝ) - 1) = Real.log D := by norm_num
  have h1 : Real.log D + (Real.log b - Real.log D) / ((2 : ℝ) - 1) = Real.log b := by
    norm_num
  rw [h0, h1, Real.exp_log hD, Real.exp_log hb]

theorem buildBlurList_pol3_two (D b s : ℝ) (hs : s ≠ 1) :
    buildBlurList D b (some s) 2 =
      [Real.exp (max (Real.log D) (Real.log b)),
       Real.exp (max (Real.log D + Real.log s) (Real.log b))] := by
  rw [buildBlurList_some_of_ne D b s 2 hs]
  have hr : List.range 2 = [0, 1] := rfl
  rw [hr]
  simp only [List.map_cons, List.map_nil, Nat.cast_zero, Nat.cast_one, zero_mul, one_mul,
    add_zero]

/-- Claim C1 (code evidence): a multi-scale configuration that the
docstring promises to handle (returning `len(scales) - 1` jumps) instead
hits the unbound local `jumps` at the first jump-recording step. -/
theorem annealing_multiscale_unbound_local :
    annealing_parameters 8 1 2 none (some 2) none (some [5, 3]) =
      .error .unboundLocalJumps := by
  rw [annealing_given_eq 8 1 2 none 2 none (some [5, 3]) (by norm_num)
      (fun s hs => Option.noConfusion hs),
    mkDescent_multi _ _ _ _ _ _ _ (by simp)]
  have hmax : max (8 : ℝ) 2 = 8 := by norm_num
  have htn : (2 : ℤ).toNat = 2 := rfl
  rw [hmax, htn, buildBlurList_geom_two 8 2 (by norm_num) (by norm_num)]
  rw [if_pos ⟨2, by simp, by norm_num [List.getD]⟩]

/-- Claim C5 (code evidence): on a schedule that descends past two scales
at once the source is meant to raise its too-steep configuration error,
but the unbound local `jumps` fails first; and when the scan finishes with
the scale pointer short of the end, the not-yet-supported error is
raised. -/
theorem multiscale_error_paths_bug :
    annealing_parameters 8 1 2 none (some 2) none (some [5, 4]) =
      .error .unboundLocalJumps ∧
    annealing_parameters 8 1 2 none (some 2) none (some [1, 1/2]) =
      .error .notImplemented := by
  constructor
  · rw [annealing_given_eq 8 1 2 none 2 none (some [5, 4]) (by norm_num)
        (fun s hs => Option.noConfusion hs),
      mkDescent_multi _ _ _ _ _ _ _ (by simp)]
    have hmax : max (8 : ℝ) 2 = 8 := by norm_num
    have htn : (2 : ℤ).toNat = 2 := rfl
    rw [hmax, htn, buildBlurList_geom_two 8 2 (by norm_num) (by norm_num)]
    rw [if_pos ⟨2, by simp, by norm_num [List.getD]⟩]
  · rw [annealing_given_eq 8 1 2 none 2 none (some [1, 1/2]) (by norm_num)
        (fun s hs => Option.noConfusion hs),
      mkDescent_multi _ _ _ _ _ _ _ (by simp)]
    have hmax : max (8 : ℝ) 2 = 8 := by norm_num
    have htn : (2 : ℤ).toNat = 2 := rfl
    rw [hmax, htn, buildBlurList_geom_two 8 2 (by norm_num) (by norm_num)]
    rw [if_neg ?hneg]
    case hneg =>
      rintro ⟨x, hx, hlt⟩
      simp only [List.tail_cons, List.mem_singleton] at hx
      subst hx
      norm_num [List.getD] at hlt

theorem annealing_eval_geom2 :
    annealing_parameters 4 2 1 none (some 2) none none =
      .ok ⟨4, [4, 1], [16, 1], [none, none], []⟩ := by
  rw [annealing_given_eq 4 2 1 none 2 none none (by norm_num)
      (fun s hs => Option.noConfusion hs),
    mkDescent_single]
  have hmax : max (4 : ℝ) 1 = 4 := by norm_num
  have htn : (2 : ℤ).toNat = 2 := rfl
  rw [hmax, htn, buildBlurList_geom_two 4 1 (by norm_num) (by norm_num)]
  norm_num [List.replicate_succ]

theorem annealing_eval_const :
    annealing_parameters 5 2 2 (some 3) (some 3) (some 1) none =
      .ok ⟨5, [2, 2, 2], [4, 4, 4], [some 9, some 9, some 9], []⟩ := by
  rw [annealing_given_eq 5 2 2 (some 3) 3 (some 1) none (by norm_num)
      (fun s hs => by injection hs with hh; subst hh; norm_num),
    mkDescent_single]
  have hmax : max (5 : ℝ) 2 = 5 := by norm_num
  have htn : (3 : ℤ).toNat = 3 := rfl
  rw [hmax, htn, buildBlurList_one]
  norm_num [List.replicate_succ]

/-- Claim C2 (counterexample): with diameter 4, blur 1, `n_iter = 2` and
`scaling = 1/2` the call succeeds with `blur_list = [4, 2]`, whose last
entry is 2, not the target blur 1 — the geometric ramp is cut off before
reaching the floor. -/
theorem blur_last_counterexample :
    annealing_parameters 4 2 1 none (some 2) (some (1/2)) none =
      .ok ⟨4, [4, 2], [16, 4], [none, none], []⟩ ∧
    ([4, 2] : List ℝ).getLast? ≠ some 1 := by
  constructor
  · rw [annealing_given_eq 4 2 1 none 2 (some (1/2)) none (by norm_num)
        (fun s hs => by injection hs with hh; subst hh; norm_num),
      mkDescent_single]
    have hmax : max (4 : ℝ) 1 = 4 := by norm_num
    have htn : (2 : ℤ).toNat = 2 := rfl
    rw [hmax, htn, buildBlurList_pol3_two 4 1 (1/2) (by norm_num)]
    have e0 : Real.exp (max (Real.log 4) (Real.log 1)) = 4 := by
      rw [Real.log_one, max_eq_left (Real.log_nonneg (by norm_num))]
      exact Real.exp_log (by norm_num)
    have e1 : Real.exp (max (Real.log 4 + Real.log (1/2)) (Real.log 1)) = 2 := by
      have hm : Real.log 4 + Real.log (1/2) = Real.log 2 := by
        rw [← Real.log_mul (by norm_num) (by norm_num)]
        norm_num
      rw [Real.log_one, hm, max_eq_left (Real.log_nonneg (by norm_num))]
      exact Real.exp_log (by norm_num)
    rw [e0, e1]
    norm_num [List.replicate_succ]
  · simp only [List.getLast?_cons_cons, List.getLast?_singleton, Option.some.injEq]
    norm_num

/-- Claim C9 (counterexample): with diameter 9, blur 1, `n_iter = 2` and
`scaling = 1/3` the call succeeds with `blur_list = [9, 3]`; no entry,
in particular not the final one, reaches the floor value blur 1. -/
theorem blur_floor_counterexample :
    annealing_parameters 9 2 1 none (some 2) (some (1/3)) none =
      .ok ⟨9, [9, 3], [81, 9], [none, none], []⟩ ∧
    ([9, 3] : List ℝ).getLast? ≠ some 1 := by
  constructor
  · rw [annealing_given_eq 9 2 1 none 2 (some (1/3)) none (by norm_num)
        (fun s hs => by injection hs with hh; subst hh; norm_num),
      mkDescent_single]
    have hmax : max (9 : ℝ) 1 = 9 := by norm_num
    have htn : (2 : ℤ).toNat = 2 := rfl
    rw [hmax, htn, buildBlurList_pol3_two 9 1 (1/3) (by norm_num)]
    have e0 : Real.exp (max (Real.log 9) (Real.log 1)) = 9 := by
      rw [Real.log_one, max_eq_left (Real.log_nonneg (by norm_num))]
      exact Real.exp_log (by norm_num)
    have e1 : Real.exp (max (Real.log 9 + Real.log (1/3)) (Real.log 1)) = 3 := by
      have hm : Real.log 9 + Real.log (1/3) = Real.log 3 := by
        rw [← Real.log_mul (by norm_num) (by norm_num)]
        norm_num
      rw [Real.log_one, hm, max_eq_left (Real.log_nonneg (by norm_num))]
      exact Real.exp_log (by norm_num)
    rw [e0, e1]
    norm_num [List.replicate_succ]
  · simp only [List.getLast?_cons_cons, List.getLast?_singleton, Option.some.injEq]
    norm_num

/-- Claim C3: when `n_iter` is absent and `0 < scaling < 1`, the
scheduler runs for `floor((log blur - log diameter) / log scaling) + 2`
iterations; in particular for diameter 1, blur 1/100, scaling 1/10, p = 2
it derives four iterations and returns
`blur_list = [1, 1/10, 1/100, 1/100]` and
`eps_list = [1, 1/100, 1/10000, 1/10000]`. -/
theorem derived_n_iter_correct :
    (∀ (d : ℝ) (p : ℕ) (b : ℝ) (reach : Option ℝ) (s : ℝ),
      0 < b → b ≤ d → 0 < s → s < 1 →
      okBlurLength (annealing_parameters d p b reach none (some s) none) =
        some (⌊(Real.log b - Real.log d) / Real.log s⌋ + 2).toNat) ∧
    annealing_parameters 1 2 (1/100) none none (some (1/10)) none =
      .ok ⟨1, [1, 1/10, 1/100, 1/100], [1, 1/100, 1/10000, 1/10000],
           [none, none, none, none], []⟩ := by
  constructor
  · intro d p b reach s hb hbd hs0 hs1
    rw [annealing_derived_eq d p b reach s none hs0 hs1]
    have hmax : max d b = d := max_eq_left hbd
    rw [hmax, mkDescent_single]
    simp [okBlurLength, Except.toOption, buildBlurList_length]
  · rw [annealing_derived_eq 1 2 (1/100) none (1/10) none (by norm_num) (by norm_num)]
    have hmax : max (1 : ℝ) (1/100) = 1 := by norm_num
    rw [hmax]
    have hL : Real.log (1/10 : ℝ) < 0 := Real.log_neg (by norm_num) (by norm_num)
    have h100 : Real.log (1/100 : ℝ) = 2 * Real.log (1/10 : ℝ) := by
      rw [show (1/100 : ℝ) = (1/10 : ℝ) ^ 2 by norm_num, Real.log_pow]
      push_cast
      ring
    have hN : (⌊(Real.log (1/100 : ℝ) - Real.log (1 : ℝ)) / Real.log (1/10 : ℝ)⌋ + 2).toNat
        = 4 := by
      rw [Real.log_one, sub_zero, h100, mul_div_assoc, div_self hL.ne, mul_one]
      have hfl : ⌊(2 : ℝ)⌋ = 2 := by norm_num
      rw [hfl]
      rfl
    rw [hN, mkDescent_single]
    have hbl : buildBlurList 1 (1/100) (some (1/10)) 4 = [1, 1/10, 1/100, 1/100] := by
      rw [buildBlurList_some_of_ne _ _ _ _ (by norm_num)]
      have hr : List.range 4 = [0, 1, 2, 3] := rfl
      rw [hr]
      simp only [List.map_cons, List.map_nil, Nat.cast_zero, Nat.cast_one, Nat.cast_ofNat,
        zero_mul, one_mul, Real.log_one, zero_add]
      have e0 : Real.exp (max (0 : ℝ) (Real.log (1/100 : ℝ))) = 1 := by
        rw [max_eq_left (by rw [h100]; linarith), Real.exp_zero]
      have e1 : Real.exp (max (Real.log (1/10 : ℝ)) (Real.log (1/100 : ℝ))) = 1/10 := by
        rw [max_eq_left (by rw [h100]; linarith)]
        exact Real.exp_log (by norm_num)
      have e2 : Real.exp (max ((2 : ℝ) * Real.log (1/10 : ℝ)) (Real.log (1/100 : ℝ))) =
          1/100 := by
        rw [← h100, max_self]
        exact Real.exp_log (by norm_num)
      have e3 : Real.exp (max ((3 : ℝ) * Real.log (1/10 : ℝ)) (Real.log (1/100 : ℝ))) =
          1/100 := by
        rw [max_eq_right (by rw [h100]; linarith)]
        exact Real.exp_log (by norm_num)
      rw [e0, e1, e2, e3]
    rw [hbl]
    norm_num [List.replicate_succ]

/-! ### Witnesses -/

/-- Witness for claim C2 (amended): the geometric configuration
(diameter 4, blur 1, two iterations, scaling absent) really ends its
blur list at the blur value 1. -/
theorem blur_last_amended_witness :
    (0 : ℝ) < 1 ∧
    ((none : Option ℝ) ≠ some 1) ∧
    (⟨4, [4, 1], [16, 1], [none, none], []⟩ : DescentParameters).blur_list.getLast? =
      some 1 :=
  ⟨by norm_num, by simp,
   blur_last_amended 4 2 1 none (some 2) none none _ (by norm_num) (by simp)
     annealing_eval_geom2 (Or.inr (Or.inl rfl))⟩

/-- Witness for claim C3: the general derived-iteration-count formula
instantiated at diameter 4, blur 1, scaling 1/2. -/
theorem derived_n_iter_correct_witness :
    (0 : ℝ) < 1 ∧ (1 : ℝ) ≤ 4 ∧ (0 : ℝ) < 1/2 ∧ (1/2 : ℝ) < 1 ∧
    okBlurLength (annealing_parameters 4 2 1 none none (some (1/2)) none) =
      some (⌊(Real.log 1 - Real.log 4) / Real.log (1/2)⌋ + 2).toNat :=
  ⟨by norm_num, by norm_num, by norm_num, by norm_num,
   derived_n_iter_correct.1 4 2 1 none (1/2) (by norm_num) (by norm_num) (by norm_num)
     (by norm_num)⟩

/-- Witness for claim C6: the constant-schedule configuration
(diameter 5, blur 2, three iterations, scaling 1, reach 3) satisfies the
length and elementwise-power conclusions. -/
theorem lists_length_and_eps_pow_witness :
    (0 : ℝ) < 2 ∧
    ((⟨5, [2, 2, 2], [4, 4, 4], [some 9, some 9, some 9], []⟩ :
        DescentParameters).eps_list =
      (⟨5, [2, 2, 2], [4, 4, 4], [some 9, some 9, some 9], []⟩ :
        DescentParameters).blur_list.map (· ^ 2) ∧
     (⟨5, [2, 2, 2], [4, 4, 4], [some 9, some 9, some 9], []⟩ :
        DescentParameters).eps_list.length =
      (⟨5, [2, 2, 2], [4, 4, 4], [some 9, some 9, some 9], []⟩ :
        DescentParameters).blur_list.length ∧
     (⟨5, [2, 2, 2], [4, 4, 4], [some 9, some 9, some 9], []⟩ :
        DescentParameters).rho_list.length =
      (⟨5, [2, 2, 2], [4, 4, 4], [some 9, some 9, some 9], []⟩ :
        DescentParameters).blur_list.length ∧
     1 ≤ (⟨5, [2, 2, 2], [4, 4, 4], [some 9, some 9, some 9], []⟩ :
        DescentParameters).blur_list.length ∧
     (∀ m : ℤ, (some 3 : Option ℤ) = some m →
       (((⟨5, [2, 2, 2], [4, 4, 4], [some 9, some 9, some 9], []⟩ :
          DescentParameters).blur_list.length : ℤ) = m))) :=
  ⟨by norm_num,
   lists_length_and_eps_pow 5 2 2 (some 3) (some 3) (some 1) none _ (by norm_num)
     annealing_eval_const⟩

/-- Witness for claim C7: in the same constant-schedule configuration with
`reach = 3` and `p = 2`, every `rho_list` entry equals `reach ^ p = 9`. -/
theorem rho_list_constant_witness :
    (0 : ℝ) < 2 ∧
    ((⟨5, [2, 2, 2], [4, 4, 4], [some 9, some 9, some 9], []⟩ :
        DescentParameters).rho_list.length =
      (⟨5, [2, 2, 2], [4, 4, 4], [some 9, some 9, some 9], []⟩ :
        DescentParameters).blur_list.length ∧
     ((some 3 : Option ℝ) = none → ∀ r ∈ (⟨5, [2, 2, 2], [4, 4, 4],
        [some 9, some 9, some 9], []⟩ : DescentParameters).rho_list, r = none) ∧
     (∀ re : ℝ, (some 3 : Option ℝ) = some re →
        ∀ r ∈ (⟨5, [2, 2, 2], [4, 4, 4], [some 9, some 9, some 9], []⟩ :
          DescentParameters).rho_list, r = some (re ^ 2))) :=
  ⟨by norm_num,
   rho_list_constant 5 2 2 (some 3) (some 3) (some 1) none _ (by norm_num)
     annealing_eval_const⟩

/-- Witness for claim C9 (amended): the geometric configuration
(diameter 4, blur 1, two iterations, scaling absent) has a non-increasing
blur list bounded below by blur, ending exactly at blur. -/
theorem blur_monotone_amended_witness :
    (0 : ℝ) < 1 ∧
    ((⟨4, [4, 1], [16, 1], [none, none], []⟩ :
        DescentParameters).blur_list.Pairwise (· ≥ ·) ∧
     (∀ x ∈ (⟨4, [4, 1], [16, 1], [none, none], []⟩ :
        DescentParameters).blur_list, (1 : ℝ) ≤ x) ∧
     (((none : Option ℝ) = none ∨ (none : Option ℝ) = some 1) →
       (⟨4, [4, 1], [16, 1], [none, none], []⟩ :
         DescentParameters).blur_list.getLast? = some 1)) :=
  ⟨by norm_num,
   blur_monotone_amended 4 2 1 none (some 2) none none _ (by norm_num)
     annealing_eval_geom2⟩
